import Mathlib

/-!
# Verification of the linear-kv store and its linearizability checker

Shallow embedding of `main.go` of the `linear-kv` repository: an in-memory
key/value store with idempotent (request-id deduplicated) writes, an
append-only operation history, and a checker (`CheckLinearizability`) that
inspects a recorded history for consistency violations.

Modelling conventions:
* `time.Time` values are modelled as `Nat` instants; `time.Duration` as `Int`
  (`End.Sub(Start)`).
* Go maps `map[string]string` / `map[string]struct{}` are modelled as
  association lists / membership lists; map assignment is in-place overwrite.
* `sort.Slice(ops, func(i,j) { return ops[i].Start.Before(ops[j].Start) })`
  is modelled as a stable insertion sort by start time.  (Go's `sort.Slice`
  leaves the relative order of equal-start records unspecified in general,
  but for slices of length ≤ 12 it runs plain insertion sort, which is
  stable; every concrete history considered below is far below that bound.)
* Go map iteration order (over `keyOps` and `clientOps`) is randomized; the
  checker only conjoins per-key / per-client results and collects messages
  whose multiset, emptiness and membership are order-independent, so the
  model fixes a deterministic first-occurrence key order via `dedup`.
* The HTTP layer (JSON decoding, status codes) is out of scope; a handler
  rejecting a request with `http.Error(..., StatusBadRequest)` before
  touching the store is modelled as returning `none` and the unchanged
  store.
-/

/-- One record of the operation log (`HistoryEntry` in main.go).
`Result` ranges over `"ok"`, `"duplicate"`, `"not_found"`.
The checker's `Operation` struct is a field-for-field copy of this record
with `ClientID := RequestID`, so a single structure serves both. -/
structure HistoryEntry where
  requestId : String
  op : String
  key : String
  value : String
  result : String
  start : Nat
  endT : Nat
  duration : Int
deriving DecidableEq

/-- The store (`Store` in main.go): key/value map, dedup set of request ids
that already produced an applied write, and the append-only history.
The `sync.Mutex` serializes the handlers; the model makes each handler an
atomic step (see `Step`). -/
structure Store where
  kv : List (String × String)
  seenWrite : List String
  history : List HistoryEntry
deriving DecidableEq

/-- `NewStore()`: all components start empty. -/
def NewStore : Store :=
  { kv := [], seenWrite := [], history := [] }

/-- Lookup in the modelled Go map (`value, ok := s.kv[key]`). -/
def kvLookup : List (String × String) → String → Option String
  | [], _ => none
  | (k₀, v₀) :: rest, k => if k₀ = k then some v₀ else kvLookup rest k

/-- Assignment in the modelled Go map (`s.kv[key] = value`). -/
def kvInsert : List (String × String) → String → String → List (String × String)
  | [], k, v => [(k, v)]
  | (k₀, v₀) :: rest, k, v =>
    if k₀ = k then (k, v) :: rest else (k₀, v₀) :: kvInsert rest k v

/-- Builds the history record appended by a handler; `duration` is
`end.Sub(start)`. -/
def mkEntry (reqId opName k v result : String) (startT endT : Nat) : HistoryEntry :=
  { requestId := reqId, op := opName, key := k, value := v, result := result,
    start := startT, endT := endT, duration := (endT : Int) - (startT : Int) }

/-- `handlePut`: rejects an empty `requestId` or `key` with a client error
(`none`, nothing recorded); otherwise, under the lock, answers
`"duplicate"` without mutating when the request id is already in the dedup
set, else applies `key → value`, records the request id, and answers
`"ok"`.  Either way a history record is appended before the lock is
released.  `startT` is captured before the lock, `endT` inside the
critical section. -/
def handlePut (s : Store) (reqId k v : String) (startT endT : Nat) :
    Store × Option String :=
  if reqId = "" ∨ k = "" then (s, none)
  else if reqId ∈ s.seenWrite then
    ({ s with history := s.history ++ [mkEntry reqId "PUT" k v "duplicate" startT endT] },
     some "duplicate")
  else
    ({ kv := kvInsert s.kv k v,
       seenWrite := reqId :: s.seenWrite,
       history := s.history ++ [mkEntry reqId "PUT" k v "ok" startT endT] },
     some "ok")

/-- `handleGet`: rejects an empty `key` with a client error (`none`, nothing
recorded); otherwise reads the current value under the lock and appends a
record with result `"ok"`/`"not_found"`.  The request id comes from the
optional `X-Request-ID` header and may be empty. -/
def handleGet (s : Store) (k reqId : String) (startT endT : Nat) :
    Store × Option (String × Bool × String) :=
  if k = "" then (s, none)
  else
    match kvLookup s.kv k with
    | some v =>
      ({ s with history := s.history ++ [mkEntry reqId "GET" k v "ok" startT endT] },
       some (v, true, "ok"))
    | none =>
      ({ s with history := s.history ++ [mkEntry reqId "GET" k "" "not_found" startT endT] },
       some ("", false, "not_found"))

/-- One serialized execution step of the server.  The `sync.Mutex` makes the
body of each handler a single critical section, so a step is one atomic
`handlePut`/`handleGet`.  The `Nat` component is the largest end timestamp
taken so far: start timestamps are captured *before* the lock and may
predate earlier operations' ends, but `time.Now()` is monotone, so each
operation's own `startT ≤ endT` and every new `endT` is at least every
previously taken one. -/
inductive Step : Store × Nat → Store × Nat → Prop
  | put (s : Store) (c : Nat) (reqId k v : String) (startT endT : Nat) :
      startT ≤ endT → c ≤ endT →
      Step (s, c) ((handlePut s reqId k v startT endT).1, endT)
  | get (s : Store) (c : Nat) (k reqId : String) (startT endT : Nat) :
      startT ≤ endT → c ≤ endT →
      Step (s, c) ((handleGet s k reqId startT endT).1, endT)

/-- Zero or more serialized steps. -/
inductive ReachFrom : Store × Nat → Store × Nat → Prop
  | refl (p : Store × Nat) : ReachFrom p p
  | step {p q r : Store × Nat} : ReachFrom p q → Step q r → ReachFrom p r

/-- States reachable from a fresh server. -/
def Reachable (p : Store × Nat) : Prop :=
  ReachFrom (NewStore, 0) p

/-! ## The linearizability checker (`LinearizabilityChecker` in main.go) -/

/-- Comparator handed to `sort.Slice`: order by start timestamp.  Stated
non-strictly so that the stable `insertionSort` below keeps equal-start
records in slice order, exactly as Go's insertion sort (used for the slice
sizes at hand) does with the strict `Start.Before` comparator. -/
def leStart (a b : HistoryEntry) : Prop :=
  a.start ≤ b.start

instance : DecidableRel leStart := fun a b => Nat.decLe a.start b.start

instance : IsTotal HistoryEntry leStart :=
  ⟨fun a b => Nat.le_total a.start b.start⟩

instance : IsTrans HistoryEntry leStart :=
  ⟨fun _ _ _ => Nat.le_trans⟩

/-- `sort.Slice(ops, ...Start.Before...)`. -/
def sortByStart (l : List HistoryEntry) : List HistoryEntry :=
  List.insertionSort leStart l

/-- The inner loop of `checkKeyConsistency` that looks for some `otherOp`
in the (sorted, same-key) slice that is a `PUT` of the same value whose
interval overlaps the read (`otherOp.Start.Before(op.End) &&
otherOp.End.After(op.Start)`).  Note: the Go code does *not* require
`otherOp.Result == "ok"` here, so duplicate-outcome PUTs qualify. -/
def sourceSearch (key : String) (sorted : List HistoryEntry) (g : HistoryEntry) : Bool :=
  sorted.any fun other =>
    decide (other.op = "PUT" ∧ other.key = key ∧ other.value = g.value ∧
      other.start < g.endT ∧ g.start < other.endT)

/-- The main loop of `checkKeyConsistency`: walk the start-sorted slice
keeping `latestValue` (updated only by `PUT`s with result `"ok"`); a `GET`
with result `"ok"` whose value differs from `latestValue` must be explained
by `sourceSearch`, else the whole check returns `false`.  `GET`s with other
results (e.g. `"not_found"`) are not examined. -/
def ckcLoop (key : String) (sorted : List HistoryEntry) :
    String → List HistoryEntry → Bool
  | _, [] => true
  | latest, op :: rest =>
    if op.op = "PUT" ∧ op.result = "ok" then
      ckcLoop key sorted op.value rest
    else if op.op = "GET" then
      if op.result = "ok" ∧ op.value ≠ latest then
        if sourceSearch key sorted op then ckcLoop key sorted latest rest else false
      else
        ckcLoop key sorted latest rest
    else
      ckcLoop key sorted latest rest

/-- `checkKeyConsistency(key, ops)`: sorts the per-key slice by start time
in place, then runs the loop above over it (the overlap search ranges over
the same sorted slice). -/
def checkKeyConsistency (key : String) (ops : List HistoryEntry) : Bool :=
  ckcLoop key (sortByStart ops) "" (sortByStart ops)

/-- Modelled from the spec: §4.3 step 1 ("Discard `Put` records with outcome
`Duplicate` ... from the key's write set"; duplicate-outcome `Put`s are
non-events).  Identical to `sourceSearch` except that a candidate source
write must additionally have result `"ok"`.  Used only to exhibit where the
code deviates from the spec's algorithm. -/
def specSourceSearch (key : String) (sorted : List HistoryEntry) (g : HistoryEntry) : Bool :=
  sorted.any fun other =>
    decide (other.op = "PUT" ∧ other.result = "ok" ∧ other.key = key ∧
      other.value = g.value ∧ other.start < g.endT ∧ g.start < other.endT)

/-- Modelled from the spec: the per-key loop with duplicate-outcome `PUT`s
excluded from the candidate source writes (spec §4.3 step 1). -/
def specCkcLoop (key : String) (sorted : List HistoryEntry) :
    String → List HistoryEntry → Bool
  | _, [] => true
  | latest, op :: rest =>
    if op.op = "PUT" ∧ op.result = "ok" then
      specCkcLoop key sorted op.value rest
    else if op.op = "GET" then
      if op.result = "ok" ∧ op.value ≠ latest then
        if specSourceSearch key sorted op then specCkcLoop key sorted latest rest else false
      else
        specCkcLoop key sorted latest rest
    else
      specCkcLoop key sorted latest rest

/-- Modelled from the spec: `checkKeyConsistency` as §4.3 describes it, with
duplicate-outcome `PUT`s never used as source writes. -/
def specKeyConsistency (key : String) (ops : List HistoryEntry) : Bool :=
  specCkcLoop key (sortByStart ops) "" (sortByStart ops)

/-- The scan of `checkReadYourWrite` that recovers `lastWrite`: the value of
the most recent earlier `PUT` by the same client to the same key, scanning
backwards; `""` when there is none.  Note: the Go code checks neither the
`PUT`'s result (a duplicate-outcome `PUT` qualifies) nor anything else. -/
def lastPutValue (prev : List HistoryEntry) (k : String) : String :=
  match prev.reverse.find? (fun p => decide (p.op = "PUT" ∧ p.key = k)) with
  | some p => p.value
  | none => ""

/-- Per-client loop of `checkReadYourWrite` over the start-sorted client
slice: a `GET` (any result) fails the check when `lastWrite` is non-empty
and differs from the `GET`'s recorded value.  `prev` is the already-walked
prefix. -/
def rywClient : List HistoryEntry → List HistoryEntry → Bool
  | _, [] => true
  | prev, op :: rest =>
    if op.op = "GET" then
      if lastPutValue prev op.key ≠ "" ∧ op.value ≠ lastPutValue prev op.key then false
      else rywClient (prev ++ [op]) rest
    else
      rywClient (prev ++ [op]) rest

/-- `checkReadYourWrite`: group by `ClientID` (= `RequestID`), sort each
group by start, and require every client's slice to pass `rywClient`.
Go iterates the group map in unspecified order; the result is the
conjunction over all clients, so order is irrelevant. -/
def checkReadYourWrite (ops : List HistoryEntry) : Bool :=
  ((ops.map (fun o => o.requestId)).dedup).all fun c =>
    rywClient [] (sortByStart (ops.filter (fun o => decide (o.requestId = c))))

/-- Per-client loop of `checkMonotonicReads`: it maintains `keyValues`, but
the branch that would compare a re-read value (`if lastValue != op.Value {}`
in the Go source) has an empty body, so nothing is ever flagged. -/
def mrClient : List (String × String) → List HistoryEntry → Bool
  | _, [] => true
  | m, op :: rest =>
    if op.op = "GET" ∧ op.result = "ok" then mrClient (kvInsert m op.key op.value) rest
    else mrClient m rest

/-- `checkMonotonicReads`: group by client, sort by start, run `mrClient`. -/
def checkMonotonicReads (ops : List HistoryEntry) : Bool :=
  ((ops.map (fun o => o.requestId)).dedup).all fun c =>
    mrClient [] (sortByStart (ops.filter (fun o => decide (o.requestId = c))))

/-- The violation message `fmt.Sprintf("Key '%s' has inconsistent
operations", key)`. -/
def keyMsg (k : String) : String :=
  "Key \x27" ++ k ++ "\x27 has inconsistent operations"

/-- The per-key pass of `CheckLinearizability`: operations are grouped by
key (`keyOps`, preserving slice order within a key) and each key failing
`checkKeyConsistency` contributes one message.  Go iterates the group map
in unspecified order; the model fixes an order via `dedup`, which only
affects the (irrelevant) ordering of the collected messages. -/
def keyViolations (h : List HistoryEntry) : List String :=
  ((h.map (fun o => o.key)).dedup).filterMap fun k =>
    if checkKeyConsistency k (h.filter (fun o => decide (o.key = k))) = true then none
    else some (keyMsg k)

/-- All violation messages `CheckLinearizability` collects: the per-key
messages, then the read-your-write and monotonic-reads messages. -/
def allViolations (h : List HistoryEntry) : List String :=
  keyViolations h
    ++ (if checkReadYourWrite h = true then [] else ["Read-your-write consistency violated"])
    ++ (if checkMonotonicReads h = true then [] else ["Monotonic reads violated"])

/-- `CheckLinearizability`: empty history is trivially linearizable;
otherwise convert records to checker operations (a field-for-field copy
with `ClientID := RequestID`), collect the violation messages, and report
linearizable iff none was collected (`len(violations) == 0`). -/
def CheckLinearizability (h : List HistoryEntry) : Bool × List String :=
  if h.isEmpty then (true, [])
  else ((allViolations h).isEmpty, allViolations h)

/-! ## Concrete histories used to settle claims about the checker -/

/-- History for C2: `r1` writes `"x"` (applied), a retry of `r1` carrying
value `"z"` is answered `duplicate` (no mutation), and an overlapping read
returns `"z"` — a value no applied write ever produced. -/
def exDupSource : List HistoryEntry :=
  [ mkEntry "r1" "PUT" "k" "x" "ok" 0 1,
    mkEntry "r1" "PUT" "k" "z" "duplicate" 2 5,
    mkEntry "c" "GET" "k" "z" "ok" 3 4 ]

/-- History for C3's counterexample: the only write of `"y"` satisfies
`Get.end ≤ write.start` (with equality, both instants 10), yet the write
sorts before the zero-length read, so the read sees it as `latestValue`. -/
def exTie : List HistoryEntry :=
  [ mkEntry "r1" "PUT" "k" "y" "ok" 10 12,
    mkEntry "c" "GET" "k" "y" "ok" 10 10 ]

/-- History for C4: client `c` first reads `"v2"`, which superseded `"v1"`
(the `"v2"` write ends at 3, before that read starts at 4), then later reads
the superseded `"v1"` — a monotonic-reads regression. -/
def exRegress : List HistoryEntry :=
  [ mkEntry "r1" "PUT" "k" "v1" "ok" 0 7,
    mkEntry "r2" "PUT" "k" "v2" "ok" 2 3,
    mkEntry "c" "GET" "k" "v2" "ok" 4 5,
    mkEntry "c" "GET" "k" "v1" "ok" 6 10 ]

/-- Store obtained by an actual serialized run for C5: client `r1` writes
`"v1"`, retries with body value `"v2"` (answered `duplicate`, not applied),
then reads back its own key. -/
def exRywStore : Store :=
  (handleGet
    (handlePut ((handlePut NewStore "r1" "k" "v1" 0 1).1) "r1" "k" "v2" 2 3).1
    "k" "r1" 4 5).1

/-- History for C6: an applied (`ok`) write to `k` completes at 1, then a
read of `k` starting at 2 reports `not_found`. -/
def exNotFound : List HistoryEntry :=
  [ mkEntry "r1" "PUT" "k" "x" "ok" 0 1,
    mkEntry "r2" "GET" "k" "" "not_found" 2 3 ]

example : checkKeyConsistency "k" exDupSource = true := by decide
example : specKeyConsistency "k" exDupSource = false := by decide
example : CheckLinearizability exDupSource = (true, []) := by decide
example : CheckLinearizability exTie = (true, []) := by decide
example : CheckLinearizability exRegress = (true, []) := by decide
example : exRywStore.history =
  [ mkEntry "r1" "PUT" "k" "v1" "ok" 0 1,
    mkEntry "r1" "PUT" "k" "v2" "duplicate" 2 3,
    mkEntry "r1" "GET" "k" "v1" "ok" 4 5 ] := by decide
example : CheckLinearizability exRywStore.history =
  (false, ["Read-your-write consistency violated"]) := by decide
example : CheckLinearizability exNotFound = (true, []) := by decide

/-! ## Sequential register semantics of the serialized store -/

/-- Effect of one history record on a sequential key/value register: only
`PUT`s with result `"ok"` mutate (duplicates and reads are no-ops). -/
def applyEntry (m : List (String × String)) (e : HistoryEntry) : List (String × String) :=
  if e.op = "PUT" ∧ e.result = "ok" then kvInsert m e.key e.value else m

/-- The key/value map a history reconstructs when replayed in log order. -/
def replay (h : List HistoryEntry) : List (String × String) :=
  h.foldl applyEntry []

/-- A record agrees with the sequential register state `m` at its position:
an `"ok"` read returns exactly the current value, a `"not_found"` read (with
recorded value `""`, Go's zero value) occurs only when the key is absent;
writes are unconstrained. -/
def entryConsistent (m : List (String × String)) (e : HistoryEntry) : Bool :=
  if e.op = "GET" then
    match kvLookup m e.key with
    | some v => decide (e.result = "ok" ∧ e.value = v)
    | none => decide (e.result = "not_found" ∧ e.value = "")
  else true

/-- The whole history, replayed from register state `m`, is sequentially
consistent: log order is a legal sequential execution of a per-key
register. -/
def seqOK : List (String × String) → List HistoryEntry → Bool
  | _, [] => true
  | m, e :: rest => entryConsistent m e && seqOK (applyEntry m e) rest

theorem seqOK_append (l : List HistoryEntry) (e : HistoryEntry) :
    ∀ m, seqOK m (l ++ [e]) = (seqOK m l && entryConsistent (List.foldl applyEntry m l) e) := by
  induction l with
  | nil => intro m; simp [seqOK]
  | cons a l ih =>
    intro m
    have h1 : seqOK m ((a :: l) ++ [e])
        = (entryConsistent m a && seqOK (applyEntry m a) (l ++ [e])) := rfl
    have h2 : seqOK m (a :: l) = (entryConsistent m a && seqOK (applyEntry m a) l) := rfl
    have h3 : List.foldl applyEntry m (a :: l) = List.foldl applyEntry (applyEntry m a) l := rfl
    rw [h1, ih (applyEntry m a), h2, h3, Bool.and_assoc]

theorem replay_append (h : List HistoryEntry) (e : HistoryEntry) :
    replay (h ++ [e]) = applyEntry (replay h) e := by
  simp [replay, List.foldl_append]

/-- Invariant tying a reachable server state to its own history: the map is
the log's replay, the log is sequentially consistent in log order, every
record has `start ≤ end` with `end` at most the clock, and end timestamps
are non-decreasing in append order. -/
def StoreInv (p : Store × Nat) : Prop :=
  p.1.kv = replay p.1.history ∧
  seqOK [] p.1.history = true ∧
  (∀ e ∈ p.1.history, e.start ≤ e.endT ∧ e.endT ≤ p.2) ∧
  List.Pairwise (fun a b : HistoryEntry => a.endT ≤ b.endT) p.1.history

theorem inv_init : StoreInv (NewStore, 0) := by
  refine ⟨rfl, rfl, ?_, List.Pairwise.nil⟩
  intro e he
  simp [NewStore] at he

theorem inv_append (s : Store) (c : Nat) (e : HistoryEntry) (t : Nat)
    (hInv : StoreInv (s, c)) (hwf : e.start ≤ e.endT) (hce : c ≤ t) (het : e.endT = t)
    (hcons : entryConsistent (replay s.history) e = true) :
    (seqOK [] (s.history ++ [e]) = true ∧
      (∀ x ∈ s.history ++ [e], x.start ≤ x.endT ∧ x.endT ≤ t) ∧
      List.Pairwise (fun a b : HistoryEntry => a.endT ≤ b.endT) (s.history ++ [e])) := by
  obtain ⟨hkv, hseq, htime, hpw⟩ := hInv
  refine ⟨?_, ?_, ?_⟩
  · rw [seqOK_append]
    have hfold : List.foldl applyEntry ([] : List (String × String)) s.history
        = replay s.history := rfl
    rw [hfold, hseq, hcons]
    rfl
  · intro x hx
    rcases List.mem_append.mp hx with hx | hx
    · exact ⟨(htime x hx).1, le_trans (htime x hx).2 hce⟩
    · rcases List.mem_singleton.mp hx with rfl
      exact ⟨hwf, le_of_eq het⟩
  · rw [List.pairwise_append]
    refine ⟨hpw, List.pairwise_singleton _ _, ?_⟩
    intro a ha b hb
    rcases List.mem_singleton.mp hb with rfl
    calc a.endT ≤ c := (htime a ha).2
      _ ≤ t := hce
      _ = b.endT := het.symm

theorem inv_clock (s : Store) (c t : Nat) (hct : c ≤ t) (hInv : StoreInv (s, c)) :
    StoreInv (s, t) := by
  obtain ⟨hkv, hseq, htime, hpw⟩ := hInv
  exact ⟨hkv, hseq, fun e he => ⟨(htime e he).1, le_trans (htime e he).2 hct⟩, hpw⟩

theorem inv_put (s : Store) (c : Nat) (reqId k v : String) (startT endT : Nat)
    (hse : startT ≤ endT) (hce : c ≤ endT) (hInv : StoreInv (s, c)) :
    StoreInv ((handlePut s reqId k v startT endT).1, endT) := by
  by_cases hbad : reqId = "" ∨ k = ""
  · rw [handlePut, if_pos hbad]
    exact inv_clock s c endT hce hInv
  · by_cases hseen : reqId ∈ s.seenWrite
    · rw [handlePut, if_neg hbad, if_pos hseen]
      have hcons : entryConsistent (replay s.history)
          (mkEntry reqId "PUT" k v "duplicate" startT endT) = true := by
        simp [entryConsistent, mkEntry]
      obtain ⟨hG1, hG2, hG3⟩ := inv_append s c
        (mkEntry reqId "PUT" k v "duplicate" startT endT) endT hInv hse hce rfl hcons
      refine ⟨?_, hG1, hG2, hG3⟩
      rw [replay_append]
      have hnoop : applyEntry (replay s.history)
          (mkEntry reqId "PUT" k v "duplicate" startT endT) = replay s.history := by
        simp [applyEntry, mkEntry]
      rw [hnoop]
      exact hInv.1
    · rw [handlePut, if_neg hbad, if_neg hseen]
      have hcons : entryConsistent (replay s.history)
          (mkEntry reqId "PUT" k v "ok" startT endT) = true := by
        simp [entryConsistent, mkEntry]
      obtain ⟨hG1, hG2, hG3⟩ := inv_append s c
        (mkEntry reqId "PUT" k v "ok" startT endT) endT hInv hse hce rfl hcons
      refine ⟨?_, hG1, hG2, hG3⟩
      rw [replay_append]
      have happ : applyEntry (replay s.history)
          (mkEntry reqId "PUT" k v "ok" startT endT) = kvInsert (replay s.history) k v := by
        simp [applyEntry, mkEntry]
      rw [happ, ← hInv.1]

theorem inv_get (s : Store) (c : Nat) (k reqId : String) (startT endT : Nat)
    (hse : startT ≤ endT) (hce : c ≤ endT) (hInv : StoreInv (s, c)) :
    StoreInv ((handleGet s k reqId startT endT).1, endT) := by
  by_cases hbad : k = ""
  · rw [handleGet, if_pos hbad]
    exact inv_clock s c endT hce hInv
  · rw [handleGet, if_neg hbad]
    cases hlook : kvLookup s.kv k with
    | some v =>
      have hcons : entryConsistent (replay s.history)
          (mkEntry reqId "GET" k v "ok" startT endT) = true := by
        have hrk : kvLookup (replay s.history) k = some v := by rw [← hInv.1]; exact hlook
        simp [entryConsistent, mkEntry, hrk]
      obtain ⟨hG1, hG2, hG3⟩ := inv_append s c
        (mkEntry reqId "GET" k v "ok" startT endT) endT hInv hse hce rfl hcons
      refine ⟨?_, hG1, hG2, hG3⟩
      rw [replay_append]
      have hnoop : applyEntry (replay s.history)
          (mkEntry reqId "GET" k v "ok" startT endT) = replay s.history := by
        simp [applyEntry, mkEntry]
      rw [hnoop]
      exact hInv.1
    | none =>
      have hcons : entryConsistent (replay s.history)
          (mkEntry reqId "GET" k "" "not_found" startT endT) = true := by
        have hrk : kvLookup (replay s.history) k = none := by rw [← hInv.1]; exact hlook
        simp [entryConsistent, mkEntry, hrk]
      obtain ⟨hG1, hG2, hG3⟩ := inv_append s c
        (mkEntry reqId "GET" k "" "not_found" startT endT) endT hInv hse hce rfl hcons
      refine ⟨?_, hG1, hG2, hG3⟩
      rw [replay_append]
      have hnoop : applyEntry (replay s.history)
          (mkEntry reqId "GET" k "" "not_found" startT endT) = replay s.history := by
        simp [applyEntry, mkEntry]
      rw [hnoop]
      exact hInv.1

theorem inv_step {p q : Store × Nat} (hInv : StoreInv p) (hs : Step p q) : StoreInv q := by
  cases hs with
  | put s c reqId k v startT endT hse hce => exact inv_put s c reqId k v startT endT hse hce hInv
  | get s c k reqId startT endT hse hce => exact inv_get s c k reqId startT endT hse hce hInv

theorem inv_reach {p q : Store × Nat} (hr : ReachFrom p q) (hp : StoreInv p) : StoreInv q := by
  induction hr with
  | refl => exact hp
  | step _ hs ih => exact inv_step ih hs

theorem inv_reachable {p : Store × Nat} (hp : Reachable p) : StoreInv p :=
  inv_reach hp inv_init

/-! ## Monotonicity of the dedup set -/

theorem seen_mono_step {p q : Store × Nat} (hs : Step p q) :
    ∀ r, r ∈ p.1.seenWrite → r ∈ q.1.seenWrite := by
  cases hs with
  | put s c reqId k v startT endT _ _ =>
    intro r hr
    by_cases hbad : reqId = "" ∨ k = ""
    · rw [handlePut, if_pos hbad]; exact hr
    · by_cases hseen : reqId ∈ s.seenWrite
      · rw [handlePut, if_neg hbad, if_pos hseen]; exact hr
      · rw [handlePut, if_neg hbad, if_neg hseen]; exact List.mem_cons_of_mem _ hr
  | get s c k reqId startT endT _ _ =>
    intro r hr
    by_cases hbad : k = ""
    · rw [handleGet, if_pos hbad]; exact hr
    · rw [handleGet, if_neg hbad]
      cases hlook : kvLookup s.kv k <;> simp only [hlook] <;> exact hr

theorem seen_mono {p q : Store × Nat} (hr : ReachFrom p q) :
    ∀ r, r ∈ p.1.seenWrite → r ∈ q.1.seenWrite := by
  induction hr with
  | refl => exact fun _ h => h
  | step _ hs ih => exact fun r h => seen_mono_step hs r (ih r h)

/-! ## The monotonic-reads check never fires -/

theorem mrClient_true : ∀ (m : List (String × String)) (l : List HistoryEntry),
    mrClient m l = true := by
  intro m l
  induction l generalizing m with
  | nil => rfl
  | cons a rest ih =>
    rw [mrClient]
    by_cases hc : a.op = "GET" ∧ a.result = "ok"
    · rw [if_pos hc]; exact ih _
    · rw [if_neg hc]; exact ih _

/-! ## A read whose only matching writes start after it ends fails the
per-key check -/

theorem ckcLoop_unexplained (k : String) (g : HistoryEntry) (sorted : List HistoryEntry)
    (hop : g.op = "GET") (hres : g.result = "ok") (hval : g.value ≠ "")
    (hwf : g.start ≤ g.endT)
    (honly : ∀ p ∈ sorted, p.op = "PUT" → p.value = g.value → g.endT < p.start) :
    ∀ (l : List HistoryEntry) (latest : String), List.Sorted leStart l →
      (∀ x ∈ l, x ∈ sorted) → g ∈ l →
      (latest = "" ∨ ∃ p ∈ sorted, p.op = "PUT" ∧ p.result = "ok" ∧
        p.value = latest ∧ p.start ≤ g.start) →
      ckcLoop k sorted latest l = false := by
  intro l
  induction l with
  | nil =>
    intro latest _ _ hg _
    exact absurd hg (List.not_mem_nil g)
  | cons a rest ih =>
    intro latest hsort hsub hg hinv
    have hsort' : List.Sorted leStart rest := hsort.of_cons
    have hsub' : ∀ x ∈ rest, x ∈ sorted := fun x hx => hsub x (List.mem_cons_of_mem a hx)
    have hne : g.value ≠ latest := by
      rcases hinv with h0 | ⟨p, hpmem, hpput, _, hpval, hple⟩
      · rw [h0]; exact hval
      · intro heq
        have hlt : g.endT < p.start := honly p hpmem hpput (by rw [hpval, ← heq])
        omega
    rcases List.mem_cons.mp hg with hga | hgr
    · -- the head is the read `g` itself
      rw [← hga] at *
      rw [ckcLoop]
      rw [if_neg (fun h => by rw [hop] at h; exact absurd h.1 (by decide))]
      rw [if_pos hop, if_pos ⟨hres, hne⟩]
      have hss : sourceSearch k sorted g = false := by
        cases hss : sourceSearch k sorted g with
        | false => rfl
        | true =>
          exfalso
          obtain ⟨other, homem, hdec⟩ := List.any_eq_true.mp hss
          obtain ⟨h1, _, h3, h4, _⟩ := of_decide_eq_true hdec
          have := honly other homem h1 h3
          omega
      rw [hss]
      rfl
    · -- the read is further down; walk one step
      have hag : leStart a g := (List.sorted_cons.mp hsort).1 g hgr
      rw [ckcLoop]
      by_cases hput : a.op = "PUT" ∧ a.result = "ok"
      · rw [if_pos hput]
        exact ih a.value hsort' hsub' hgr
          (Or.inr ⟨a, hsub a (List.mem_cons_self a rest), hput.1, hput.2, rfl, hag⟩)
      · rw [if_neg hput]
        by_cases hgetop : a.op = "GET"
        · rw [if_pos hgetop]
          by_cases hcond : a.result = "ok" ∧ a.value ≠ latest
          · rw [if_pos hcond]
            cases hss : sourceSearch k sorted a with
            | false => rw [if_neg Bool.false_ne_true]
            | true =>
              rw [if_pos rfl]
              exact ih latest hsort' hsub' hgr hinv
          · rw [if_neg hcond]
            exact ih latest hsort' hsub' hgr hinv
        · rw [if_neg hgetop]
          exact ih latest hsort' hsub' hgr hinv

theorem checkKeyConsistency_false (k : String) (ops : List HistoryEntry)
    (g : HistoryEntry) (hg : g ∈ ops)
    (hop : g.op = "GET") (hres : g.result = "ok") (hval : g.value ≠ "")
    (hwf : g.start ≤ g.endT)
    (honly : ∀ p ∈ ops, p.op = "PUT" → p.value = g.value → g.endT < p.start) :
    checkKeyConsistency k ops = false := by
  rw [checkKeyConsistency]
  have hmem : ∀ x, x ∈ sortByStart ops ↔ x ∈ ops := by
    intro x
    exact List.mem_insertionSort leStart
  exact ckcLoop_unexplained k g (sortByStart ops) hop hres hval hwf
    (fun p hp => honly p ((hmem p).mp hp))
    (sortByStart ops) ""
    (List.sorted_insertionSort leStart ops)
    (fun x hx => hx)
    ((hmem g).mpr hg)
    (Or.inl rfl)

/-- Any collected message makes `CheckLinearizability` report
non-linearizable and appear in the returned violation list. -/
theorem checkLin_of_msg {h : List HistoryEntry} {m : String}
    (hm : m ∈ allViolations h) (hne : h.isEmpty = false) :
    (CheckLinearizability h).1 = false ∧ m ∈ (CheckLinearizability h).2 := by
  rw [CheckLinearizability, hne, if_neg Bool.false_ne_true]
  constructor
  · cases hv : allViolations h with
    | nil => rw [hv] at hm; exact absurd hm (List.not_mem_nil m)
    | cons a t => rfl
  · exact hm

/-! ## Claim theorems -/

/-- C1: once a valid `Put(requestId, k, v)` has succeeded with outcome
`Ok`, every subsequent `Put` with the same request id, key and value — in
any state the server later reaches — is answered `Duplicate` and leaves the
key/value map and the dedup set exactly as they were before the call. -/
theorem put_after_ok_is_duplicate (s0 s : Store) (c0 c : Nat) (r k v : String)
    (t1 t2 u1 u2 : Nat)
    (hok : (handlePut s0 r k v t1 t2).2 = some "ok")
    (hreach : ReachFrom ((handlePut s0 r k v t1 t2).1, c0) (s, c)) :
    (handlePut s r k v u1 u2).2 = some "duplicate" ∧
    (handlePut s r k v u1 u2).1.kv = s.kv ∧
    (handlePut s r k v u1 u2).1.seenWrite = s.seenWrite := by
  by_cases hbad : r = "" ∨ k = ""
  · rw [handlePut, if_pos hbad] at hok
    simp at hok
  · by_cases hseen : r ∈ s0.seenWrite
    · rw [handlePut, if_neg hbad, if_pos hseen] at hok
      simp at hok
    · have hmem0 : r ∈ (handlePut s0 r k v t1 t2).1.seenWrite := by
        rw [handlePut, if_neg hbad, if_neg hseen]
        exact List.mem_cons_self r s0.seenWrite
      have hmem : r ∈ s.seenWrite := seen_mono hreach r hmem0
      rw [handlePut, if_neg hbad, if_pos hmem]
      exact ⟨rfl, rfl, rfl⟩

theorem put_after_ok_is_duplicate_witness :
    (handlePut (handlePut NewStore "r1" "k" "v" 0 1).1 "r1" "k" "v" 2 3).2
        = some "duplicate" ∧
    (handlePut (handlePut NewStore "r1" "k" "v" 0 1).1 "r1" "k" "v" 2 3).1.kv
        = (handlePut NewStore "r1" "k" "v" 0 1).1.kv ∧
    (handlePut (handlePut NewStore "r1" "k" "v" 0 1).1 "r1" "k" "v" 2 3).1.seenWrite
        = (handlePut NewStore "r1" "k" "v" 0 1).1.seenWrite :=
  put_after_ok_is_duplicate NewStore (handlePut NewStore "r1" "k" "v" 0 1).1 1 1
    "r1" "k" "v" 0 1 2 3 (by decide) (ReachFrom.refl _)

/-- C10: deduplication is keyed by request id alone: whenever the request id
is already in the dedup set, a (valid) `Put` reusing it is answered
`Duplicate` and mutates neither the map nor the dedup set, even when its key
or value differ from the originally applied write's.  (A history record is
still appended, as for every executed operation.) -/
theorem dedup_keyed_by_requestId (s : Store) (r k v : String) (t1 t2 : Nat)
    (hmem : r ∈ s.seenWrite) (hr : r ≠ "") (hk : k ≠ "") :
    (handlePut s r k v t1 t2).2 = some "duplicate" ∧
    (handlePut s r k v t1 t2).1.kv = s.kv ∧
    (handlePut s r k v t1 t2).1.seenWrite = s.seenWrite := by
  have hbad : ¬(r = "" ∨ k = "") := by
    rintro (h | h)
    · exact hr h
    · exact hk h
  rw [handlePut, if_neg hbad, if_pos hmem]
  exact ⟨rfl, rfl, rfl⟩

theorem dedup_keyed_by_requestId_witness :
    (handlePut { kv := [("a", "x")], seenWrite := ["r1"], history := [] }
        "r1" "b" "y" 0 1).2 = some "duplicate" ∧
    (handlePut { kv := [("a", "x")], seenWrite := ["r1"], history := [] }
        "r1" "b" "y" 0 1).1.kv = [("a", "x")] ∧
    (handlePut { kv := [("a", "x")], seenWrite := ["r1"], history := [] }
        "r1" "b" "y" 0 1).1.seenWrite = ["r1"] :=
  dedup_keyed_by_requestId { kv := [("a", "x")], seenWrite := ["r1"], history := [] }
    "r1" "b" "y" 0 1 (by decide) (by decide) (by decide)

/-- C7: `handlePut` fails with the invalid-argument client error exactly
when `requestId` or `key` is empty, `handleGet` exactly when `key` is
empty, and such a failure leaves the whole store (map, dedup set and
operation log) unchanged — in particular no history record is appended. -/
theorem invalid_argument_rejected (s : Store) (r k v kg rid : String)
    (t1 t2 u1 u2 : Nat) :
    ((handlePut s r k v t1 t2).2 = none ↔ (r = "" ∨ k = "")) ∧
    ((r = "" ∨ k = "") → (handlePut s r k v t1 t2).1 = s) ∧
    ((handleGet s kg rid u1 u2).2 = none ↔ kg = "") ∧
    (kg = "" → (handleGet s kg rid u1 u2).1 = s) := by
  refine ⟨⟨?_, ?_⟩, ?_, ⟨?_, ?_⟩, ?_⟩
  · intro hnone
    by_cases hbad : r = "" ∨ k = ""
    · exact hbad
    · exfalso
      by_cases hseen : r ∈ s.seenWrite
      · rw [handlePut, if_neg hbad, if_pos hseen] at hnone
        exact Option.noConfusion hnone
      · rw [handlePut, if_neg hbad, if_neg hseen] at hnone
        exact Option.noConfusion hnone
  · intro hbad
    rw [handlePut, if_pos hbad]
  · intro hbad
    rw [handlePut, if_pos hbad]
  · intro hnone
    by_cases hbad : kg = ""
    · exact hbad
    · exfalso
      rw [handleGet, if_neg hbad] at hnone
      cases hlook : kvLookup s.kv kg <;> rw [hlook] at hnone <;>
        exact Option.noConfusion hnone
  · intro hbad
    rw [handleGet, if_pos hbad]
  · intro hbad
    rw [handleGet, if_pos hbad]

theorem invalid_argument_rejected_witness :
    (handlePut NewStore "" "k" "v" 0 1).1 = NewStore ∧
    (handleGet NewStore "" "c" 0 1).1 = NewStore :=
  ⟨(invalid_argument_rejected NewStore "" "k" "v" "" "c" 0 1 0 1).2.1 (Or.inl rfl),
   (invalid_argument_rejected NewStore "" "k" "v" "" "c" 0 1 0 1).2.2.2 rfl⟩

/-- C8: in every reachable server state, every record of the operation log
satisfies `start ≤ end` (`endTime` is part of the record when it is
appended), and a step only ever extends the log at its tail — records,
being values of an append-only list, are never mutated after the append. -/
theorem history_wellformed_append_only (p : Store × Nat) (hp : Reachable p) :
    (∀ e ∈ p.1.history, e.start ≤ e.endT) ∧
    ∀ q : Store × Nat, Step p q → ∃ t, q.1.history = p.1.history ++ t := by
  constructor
  · intro e he
    exact ((inv_reachable hp).2.2.1 e he).1
  · intro q hs
    cases hs with
    | put s c reqId k v startT endT _ _ =>
      by_cases hbad : reqId = "" ∨ k = ""
      · rw [handlePut, if_pos hbad]
        exact ⟨[], (List.append_nil _).symm⟩
      · by_cases hseen : reqId ∈ s.seenWrite
        · rw [handlePut, if_neg hbad, if_pos hseen]
          exact ⟨[mkEntry reqId "PUT" k v "duplicate" startT endT], rfl⟩
        · rw [handlePut, if_neg hbad, if_neg hseen]
          exact ⟨[mkEntry reqId "PUT" k v "ok" startT endT], rfl⟩
    | get s c k reqId startT endT _ _ =>
      by_cases hbad : k = ""
      · rw [handleGet, if_pos hbad]
        exact ⟨[], (List.append_nil _).symm⟩
      · rw [handleGet, if_neg hbad]
        cases hlook : kvLookup s.kv k with
        | some v => exact ⟨[mkEntry reqId "GET" k v "ok" startT endT], rfl⟩
        | none => exact ⟨[mkEntry reqId "GET" k "" "not_found" startT endT], rfl⟩

/-- C9: every serialized execution (each handler's critical section taken as
one atomic step) yields a history that is a valid linearization of itself:
replayed in log order it satisfies sequential register semantics, and log
order extends real-time precedence (an operation that ends before another
starts is logged before it). -/
theorem serialized_execution_linearizable (p : Store × Nat) (hp : Reachable p) :
    seqOK [] p.1.history = true ∧
    ∀ (i j : Fin p.1.history.length),
      (p.1.history.get i).endT < (p.1.history.get j).start → i < j := by
  obtain ⟨hkv, hseq, htime, hpw⟩ := inv_reachable hp
  refine ⟨hseq, ?_⟩
  intro i j hlt
  by_contra hji
  push_neg at hji
  have hjmem : p.1.history.get j ∈ p.1.history := p.1.history.get_mem j.1 j.2
  have hims : (p.1.history.get j).start ≤ (p.1.history.get j).endT := (htime _ hjmem).1
  rcases lt_or_eq_of_le hji with hj | hj
  · have hpij := List.pairwise_iff_get.mp hpw j i hj
    omega
  · rw [hj] at hlt hims
    omega

theorem serialized_execution_linearizable_witness :
    seqOK []
      ((handleGet (handlePut NewStore "r1" "k" "v" 0 1).1 "k" "c" 1 2).1, 2).1.history
      = true :=
  (serialized_execution_linearizable
    ((handleGet (handlePut NewStore "r1" "k" "v" 0 1).1 "k" "c" 1 2).1, 2)
    (ReachFrom.step
      (ReachFrom.step (ReachFrom.refl _)
        (Step.put NewStore 0 "r1" "k" "v" 0 1 (by decide) (by decide)))
      (Step.get (handlePut NewStore "r1" "k" "v" 0 1).1 1 "k" "c" 1 2
        (by decide) (by decide)))).1

theorem history_wellformed_append_only_witness :
    (mkEntry "r1" "PUT" "k" "v" "ok" 0 1).start
      ≤ (mkEntry "r1" "PUT" "k" "v" "ok" 0 1).endT :=
  (history_wellformed_append_only ((handlePut NewStore "r1" "k" "v" 0 1).1, 1)
    (ReachFrom.step (ReachFrom.refl _)
      (Step.put NewStore 0 "r1" "k" "v" 0 1 (by decide) (by decide)))).1
    (mkEntry "r1" "PUT" "k" "v" "ok" 0 1) (by decide)

/-- C2: falsified — the per-key check does use a duplicate-outcome `PUT` as
the source write explaining a read.  In `exDupSource` the value `"z"` is
never written by an `ok` `PUT`, yet the checker accepts the history because
the overlapping duplicate-outcome `PUT` of `"z"` satisfies its source
search; the spec-faithful variant, which discards duplicate writes, rejects
it. -/
theorem duplicate_put_explains_read :
    checkKeyConsistency "k" exDupSource = true ∧
    specKeyConsistency "k" exDupSource = false ∧
    (CheckLinearizability exDupSource).1 = true ∧
    (∀ e ∈ exDupSource, e.op = "PUT" ∧ e.result = "ok" → e.value ≠ "z") ∧
    (∃ e ∈ exDupSource, e.op = "GET" ∧ e.result = "ok" ∧ e.value = "z" ∧
      ∃ d ∈ exDupSource, d.op = "PUT" ∧ d.result = "duplicate" ∧ d.value = "z" ∧
        d.start < e.endT ∧ e.start < d.endT) := by
  decide

/-- C3 counterexample: with real-time precedence taken as the claim states
it (`Get.end ≤ write.start`, equality allowed), the checker can pass.  In
`exTie` the only write of `"y"` satisfies `Get.end ≤ write.start` (both are
instant 10), yet it sorts before the zero-length read — Go's insertion sort
keeps equal-start elements in slice order — so the read sees it as
`latestValue` and `CheckLinearizability` reports the history linearizable
with no violations. -/
theorem future_write_tie_not_flagged :
    CheckLinearizability exTie = (true, []) ∧
    (∃ g ∈ exTie, g.op = "GET" ∧ g.result = "ok" ∧ g.key = "k" ∧ g.value = "y" ∧
      g.start ≤ g.endT ∧
      (∃ w ∈ exTie, w.op = "PUT" ∧ w.key = "k" ∧ w.value = "y") ∧
      (∀ w ∈ exTie, w.op = "PUT" → w.key = "k" → w.value = "y" →
        g.endT ≤ w.start)) := by
  decide

/-- C3 amended: if a well-formed (`start ≤ end`) `Get` to key `k` returns a
non-empty value and every `PUT` of that value to `k` starts strictly after
the `Get` ends (`Get.end < write.start`), then `CheckLinearizability`
returns `isLinearizable = false` and its violations include the message
naming key `k`. -/
theorem future_write_strict_flagged (h : List HistoryEntry) (g : HistoryEntry)
    (k : String) (hg : g ∈ h) (hop : g.op = "GET") (hres : g.result = "ok")
    (hkey : g.key = k) (hval : g.value ≠ "") (hwf : g.start ≤ g.endT)
    (honly : ∀ p ∈ h, p.op = "PUT" → p.key = k → p.value = g.value →
      g.endT < p.start) :
    (CheckLinearizability h).1 = false ∧ keyMsg k ∈ (CheckLinearizability h).2 := by
  have hfalse : checkKeyConsistency k (h.filter (fun o => decide (o.key = k))) = false := by
    apply checkKeyConsistency_false k _ g _ hop hres hval hwf
    · intro p hp hpput hpval
      have hpfil := List.mem_filter.mp hp
      exact honly p hpfil.1 hpput (of_decide_eq_true hpfil.2) hpval
    · exact List.mem_filter.mpr ⟨hg, by rw [hkey]; exact decide_eq_true rfl⟩
  have hkmem : k ∈ (h.map (fun o => o.key)).dedup :=
    List.mem_dedup.mpr (List.mem_map.mpr ⟨g, hg, hkey⟩)
  have hmsg : keyMsg k ∈ keyViolations h := by
    rw [keyViolations]
    refine List.mem_filterMap.mpr ⟨k, hkmem, ?_⟩
    rw [hfalse]
    rfl
  have hmsg2 : keyMsg k ∈ allViolations h := by
    rw [allViolations]
    exact List.mem_append_left _ (List.mem_append_left _ hmsg)
  have hne : h.isEmpty = false := by
    cases h with
    | nil => cases hg
    | cons a t => rfl
  exact checkLin_of_msg hmsg2 hne

/-- A history meeting C3's amended hypotheses with strict precedence. -/
def exStrict : List HistoryEntry :=
  [ mkEntry "c" "GET" "k" "y" "ok" 3 4,
    mkEntry "r1" "PUT" "k" "y" "ok" 10 12 ]

theorem future_write_strict_flagged_witness :
    (CheckLinearizability exStrict).1 = false ∧
    keyMsg "k" ∈ (CheckLinearizability exStrict).2 :=
  future_write_strict_flagged exStrict (mkEntry "c" "GET" "k" "y" "ok" 3 4) "k"
    (by decide) rfl rfl rfl (by decide) (by decide) (by decide)

/-- C4: the monotonic-reads check never reports anything — its comparison
branch is empty in the source, so `checkMonotonicReads` is constantly
`true`; in particular the regression history `exRegress` (the same client
reads the newer `"v2"`, then the superseded `"v1"`) is reported fully
linearizable with no violations. -/
theorem monotonic_reads_check_vacuous :
    (∀ ops : List HistoryEntry, checkMonotonicReads ops = true) ∧
    CheckLinearizability exRegress = (true, []) ∧
    (∃ g1 ∈ exRegress, ∃ g2 ∈ exRegress, ∃ w ∈ exRegress,
      g1.requestId = g2.requestId ∧ g1.op = "GET" ∧ g2.op = "GET" ∧
      g1.result = "ok" ∧ g2.result = "ok" ∧ g1.key = g2.key ∧
      g1.endT ≤ g2.start ∧ g1.value = "v2" ∧ g2.value = "v1" ∧
      w.op = "PUT" ∧ w.result = "ok" ∧ w.key = g1.key ∧ w.value = "v2" ∧
      w.endT ≤ g1.start) := by
  refine ⟨?_, by decide, by decide⟩
  intro ops
  rw [checkMonotonicReads, List.all_eq_true]
  intro c _
  exact mrClient_true [] _

/-- C5: falsified on an actual serialized run of the store — `exRywStore`'s
history is sequentially consistent (`seqOK`) and its only `GET` returns
`"v1"`, exactly the value of the client's only successful `PUT`; yet the
read-your-write check fails, because the code compares the read against the
client's most recent prior `PUT` of *any* outcome (here the duplicate retry
carrying body value `"v2"`, which was never applied) instead of the most
recent successful one. -/
theorem ryw_flags_fresh_read :
    CheckLinearizability exRywStore.history
      = (false, ["Read-your-write consistency violated"]) ∧
    seqOK [] exRywStore.history = true ∧
    (∀ e ∈ exRywStore.history, e.op = "PUT" ∧ e.result = "ok" → e.value = "v1") ∧
    (∀ e ∈ exRywStore.history, e.op = "GET" → e.result = "ok" ∧ e.value = "v1") ∧
    Reachable (exRywStore, 5) := by
  refine ⟨by decide, by decide, by decide, by decide, ?_⟩
  exact ReachFrom.step
    (ReachFrom.step
      (ReachFrom.step (ReachFrom.refl _)
        (Step.put NewStore 0 "r1" "k" "v1" 0 1 (by decide) (by decide)))
      (Step.put (handlePut NewStore "r1" "k" "v1" 0 1).1 1 "r1" "k" "v2" 2 3
        (by decide) (by decide)))
    (Step.get (handlePut (handlePut NewStore "r1" "k" "v1" 0 1).1 "r1" "k" "v2" 2 3).1 3
      "k" "r1" 4 5 (by decide) (by decide))

/-- C6: falsified — a `NotFound` read real-time-preceded by an `ok` write to
the same key is not flagged: `checkKeyConsistency` only examines `GET`s
with result `"ok"`, so `CheckLinearizability` reports `exNotFound`
linearizable with no violations. -/
theorem notfound_after_ok_put_not_flagged :
    CheckLinearizability exNotFound = (true, []) ∧
    (∃ w ∈ exNotFound, ∃ g ∈ exNotFound, w.op = "PUT" ∧ w.result = "ok" ∧
      w.key = "k" ∧ g.op = "GET" ∧ g.result = "not_found" ∧ g.key = "k" ∧
      w.endT ≤ g.start) := by
  decide
